import Mathlib

/-!
Verification of the artifact-publication pipeline of `tasks/remote_storage.py`
(freeipa-pr-ci): local index generation, cloud upload, metadata tagging and the
root-index aggregation.  Python functions are shallowly embedded as Lean
functions; fallible Python code is embedded in the `Except` monad, where
`.error` means an exception propagated out of the embedded function.
-/

namespace RemoteStorage

/-- Python exceptions that can escape the embedded functions.
`typeError` is the error raised by `sorted` when comparing `None` with a
datetime (or with `None`), `indexError` the error of `list[-2]` on a too-short
list, and `otherError` stands for any exception that is not the store client's
`ClientError`. -/
inductive PyErr where
  | typeError
  | indexError
  | otherError
  deriving DecidableEq, Repr

/-- Lower-case hexadecimal digit, as in the character class of the canonical
UUID pattern. -/
def isHexDigit (c : Char) : Bool :=
  c.isDigit || ('a' ≤ c && c ≤ 'f')

/-- Python `s.split(sep)` for a single-character separator, on the character
list of the string: `"a/b/".split("/")` is `["a", "b", ""]` and
`"".split("/")` is `[""]`. -/
def splitOnChar (sep : Char) : List Char → List (List Char)
  | [] => [[]]
  | c :: cs =>
      let r := splitOnChar sep cs
      if c == sep then [] :: r
      else
        match r with
        | [] => [[c]]
        | g :: gs => (c :: g) :: gs

/-- Python `s.endswith(suffix)`, over character lists. -/
def strEndsWith (s suffix : String) : Bool :=
  suffix.toList.isSuffixOf s.toList

/-- Modelled from the spec: the regular expression `UUID_RE` lives in
`tasks/constants.py`, which is not part of the sources; per spec sections 6 and
8 it is the anchored canonical UUID form (hex-with-hyphens, groups of
8-4-4-4-12 lower-case hex digits).  `re.match(UUID_RE, s)` then succeeds
exactly on strings of this shape. -/
def isUuid (s : String) : Bool :=
  match splitOnChar '-' s.toList with
  | [a, b, c, d, e] =>
      a.length == 8 && b.length == 4 && c.length == 4 && d.length == 4 &&
      e.length == 12 && (a ++ b ++ c ++ d ++ e).all isHexDigit
  | _ => false

/-- The response of `client.head_object` for a job-root marker object:
the optional `LastModified` timestamp (a datetime, embedded as `Nat`) and the
user `Metadata` map (string to string, embedded as an association list). -/
structure HeadResp where
  lastModified : Option Nat
  metadata : List (String × String)
  deriving DecidableEq, Repr

/-- Outcome of the `head_object` call performed by `get_jobdir_metadata` for
one job prefix: a response, a `botocore` `ClientError`, or any other
exception. -/
inductive FetchOutcome where
  | ok (resp : HeadResp)
  | clientError
  | otherError
  deriving DecidableEq, Repr

/-- The per-job metadata record built by `get_jobdir_metadata`
(`{'name': ..., 'mtime': ..., 'pr_number': ..., ...}`). -/
structure JobRecord where
  name : String
  mtime : Option Nat
  pr_number : Option String
  pr_author : Option String
  task_name : Option String
  returncode : Option String
  deriving DecidableEq, Repr

/-- `get_jobdir_metadata(job_uuid)` of `tasks/remote_storage.py:32-56`.
The `head_object` call is abstracted by its outcome `f`.  A `ClientError` is
caught and the function returns `None`; any other exception escapes (in the
threaded caller it is re-raised by `future.result()`).  On success the job
name is `job_uuid.split(os.sep)[-2]` (with `os.sep = "/"`; Python raises
`IndexError` when the split has fewer than two parts), and a record is built
only when the name matches `UUID_RE`; otherwise the function falls off the
`if` and returns `None`. -/
def get_jobdir_metadata (key : String) (f : FetchOutcome) :
    Except PyErr (Option JobRecord) :=
  match f with
  | .clientError => .ok none
  | .otherError => .error .otherError
  | .ok resp =>
      let parts := splitOnChar '/' key.toList
      if h : 2 ≤ parts.length then
        let name := String.mk (parts.get ⟨parts.length - 2, by omega⟩)
        if isUuid name then
          .ok (some { name := name
                      mtime := resp.lastModified
                      pr_number := resp.metadata.lookup "pr_number"
                      pr_author := resp.metadata.lookup "pr_author"
                      task_name := resp.metadata.lookup "task_name"
                      returncode := resp.metadata.lookup "returncode" })
        else .ok none
      else .error .indexError

/-- `get_jobs()` of `tasks/remote_storage.py:59-77`.  The paginated listing is
abstracted by the full list of job prefixes the store would return and by the
point at which a `ClientError` strikes: `failAt = some k` means the error is
raised after `k` prefixes were yielded.  The `except ClientError` clause sits
inside the generator, so the error is logged and swallowed and the generator
simply stops: the caller receives the truncated prefix list. -/
def get_jobs (prefixes : List String) (failAt : Option Nat) : List String :=
  match failAt with
  | none => prefixes
  | some k => prefixes.take k

/-- Python comparison `a < b` on the `mtime` sort keys: comparing `None` with
a datetime (or with `None`) raises `TypeError`. -/
def pyLtKey : Option Nat → Option Nat → Except PyErr Bool
  | some a, some b => .ok (decide (a < b))
  | _, _ => .error .typeError

/-- One insertion step of the stable descending sort performed by
`sorted(objects, key=lambda k: k['mtime'], reverse=True)` at
`tasks/remote_storage.py:99`: `x` is placed before the first element whose key
is strictly smaller, i.e. after every earlier element with an equal or larger
key.  Each comparison is a Python key comparison and may raise. -/
def pyInsertDesc (x : JobRecord) : List JobRecord → Except PyErr (List JobRecord)
  | [] => .ok [x]
  | y :: ys =>
      match pyLtKey y.mtime x.mtime with
      | .error e => .error e
      | .ok true => .ok (x :: y :: ys)
      | .ok false =>
          match pyInsertDesc x ys with
          | .error e => .error e
          | .ok rest => .ok (y :: rest)

/-- `sorted(objects, key=lambda k: k['mtime'], reverse=True)`: a stable
descending sort (CPython's sort is stable also under `reverse=True`), raising
`TypeError` as soon as a key comparison involves a `None`.  Any stable
descending sort computes the same function, so insertion sort is an
extensionally faithful embedding; it also performs no comparison on lists of
length at most one and compares every element at least once otherwise, the two
facts that decide when the `TypeError` fires. -/
def sortGo (acc : List JobRecord) : List JobRecord → Except PyErr (List JobRecord)
  | [] => .ok acc
  | x :: xs =>
      match pyInsertDesc x acc with
      | .error e => .error e
      | .ok acc2 => sortGo acc2 xs

/-- The embedded `sorted(..., reverse=True)` call, starting from the empty
accumulated prefix. -/
def sortRecs (l : List JobRecord) : Except PyErr (List JobRecord) :=
  sortGo [] l

/-- Sort key with `None` defaulted, used by the pure reference sort; on every
input on which the Python sort succeeds the two agree. -/
def keyD (r : JobRecord) : Nat := r.mtime.getD 0

/-- Pure stable descending insertion step. -/
def insertDesc (x : JobRecord) : List JobRecord → List JobRecord
  | [] => [x]
  | y :: ys => if keyD y < keyD x then x :: y :: ys else y :: insertDesc x ys

/-- Pure stable descending insertion sort, accumulator form. -/
def isortGo (acc : List JobRecord) : List JobRecord → List JobRecord
  | [] => acc
  | x :: xs => isortGo (insertDesc x acc) xs

/-- Pure stable descending insertion sort. -/
def isortD (l : List JobRecord) : List JobRecord :=
  isortGo [] l

/-- Sequential collection of the per-job fetch results, as observed through
`future.result()` in the `as_completed` loop of `create_jobs_root_index`: the
first re-raised exception aborts the loop. -/
def mapExcept (g : α → Except PyErr β) : List α → Except PyErr (List β)
  | [] => .ok []
  | x :: xs =>
      match g x with
      | .error e => .error e
      | .ok y =>
          match mapExcept g xs with
          | .error e => .error e
          | .ok ys => .ok (y :: ys)

/-- `create_jobs_root_index()` of `tasks/remote_storage.py:80-107`.  The jobs
argument carries, for each listed prefix, the outcome of its metadata fetch,
in completion order (the `as_completed` order is nondeterministic, so it is a
parameter).  `None` results are filtered out, the survivors are sorted by
modification time descending, and the root index object is put.  `.ok objs`
means the `put_object` call for the root index was issued with the sorted
records `objs`; `.error e` means the pass raised `e` before the put (the
function-level `except` clause catches only `ClientError`, which none of the
embedded steps raises). -/
def create_jobs_root_index (jobs : List (String × FetchOutcome)) :
    Except PyErr (List JobRecord) :=
  match mapExcept (fun p => get_jobdir_metadata p.1 p.2) jobs with
  | .error e => .error e
  | .ok metas =>
      match sortRecs (metas.filterMap id) with
      | .error e => .error e
      | .ok sorted => .ok sorted

/-- The whole aggregation pass: enumerate job prefixes with `get_jobs`
(truncated at a listing `ClientError`) and feed them, with their fetch
outcomes, to `create_jobs_root_index`. -/
def aggregate (prefixes : List String) (failAt : Option Nat)
    (fetch : String → FetchOutcome) : Except PyErr (List JobRecord) :=
  create_jobs_root_index ((get_jobs prefixes failAt).map fun s => (s, fetch s))

/-- `CreateRootIndex._run` of `tasks/remote_storage.py:276-288` acting on the
root index object of the bucket.  `prevRoot` is the last successfully
published root index (`none` if never published).  Only the canonical owner
string `"freeipa"` triggers an aggregation; a pass that raises leaves the
previous root index in place, a pass that reaches the put overwrites it. -/
def createRootIndex_run (repo_owner : String) (prefixes : List String)
    (failAt : Option Nat) (fetch : String → FetchOutcome)
    (prevRoot : Option (List JobRecord)) : Option (List JobRecord) :=
  if repo_owner == "freeipa" then
    match aggregate prefixes failAt fetch with
    | .ok objs => some objs
    | .error _ => prevRoot
  else prevRoot

/-- The fields of a constructed `CloudUpload` task
(`tasks/remote_storage.py:237-251`).  `pr_number` and `returncode` pass
through `str(...)`, so they are strings; `pr_author` and `task_name` keep
whatever value (possibly `None`) was passed. -/
structure CloudUpload where
  uuid : String
  repo_owner : String
  pr_number : String
  pr_author : Option String
  task_name : Option String
  returncode : String
  deriving DecidableEq, Repr

/-- Python `str(x)` on an optional value: `str(None)` is the string
`"None"`. -/
def pyStr : Option String → String
  | none => "None"
  | some s => s

/-- The truth value of the Python expression `not None`: `None` is falsy, so
`not None` evaluates to `True`.  The conditionals in `CloudUpload.__init__`
read `value if not None else ''`, so their condition is this constant rather
than a test of the value. -/
def py_not_None : Bool := true

/-- `CloudUpload.__init__` of `tasks/remote_storage.py:241-251`.  The UUID is
validated with `re.match(UUID_RE, uuid)` before anything else; on failure a
`TaskException` is raised (embedded as `.error`).  The constructor performs no
filesystem or network access: it only runs the regex match and field
assignments (the base-class constructor, `FallibleTask.__init__` from the
absent `tasks/common.py`, only stores bookkeeping flags per spec section 4.7).
The optional fields are assigned through `value if not None else ''`
conditionals, embedded verbatim. -/
def cloudUpload_init (uuid : String) (pr_number : Option String)
    (task_name : Option String) (repo_owner : String)
    (pr_author : Option String) (returncode : Option String) :
    Except String CloudUpload :=
  if !isUuid uuid then .error "Invalid job UUID"
  else
    .ok { uuid := uuid
          repo_owner := repo_owner
          pr_number := if py_not_None then pyStr pr_number else ""
          pr_author := if py_not_None then pr_author else some ""
          task_name := if py_not_None then task_name else some ""
          returncode := if py_not_None then pyStr returncode else "" }

/-- The two glob patterns occurring in the `aws s3 sync` filter arguments of
`CloudUpload._run` (`tasks/remote_storage.py:261-262`): `*` and `*.gz`. -/
inductive AwsPattern where
  | star
  | starDotGz
  deriving DecidableEq, Repr

/-- Modelled from the spec: the matching semantics of the awscli filter
patterns (the awscli itself is an external tool; spec section 4.4 describes
the intended effect).  `*` matches every path, `*.gz` matches exactly the
paths ending in `.gz`. -/
def awsMatch : AwsPattern → String → Bool
  | .star, _ => true
  | .starDotGz, s => strEndsWith s ".gz"

/-- One `--include`/`--exclude` argument of `aws s3 sync`. -/
structure AwsFilter where
  exclude : Bool
  pat : AwsPattern
  deriving DecidableEq, Repr

/-- Modelled from the spec: awscli applies the filter arguments in command
order, the last matching filter deciding the file's fate, with files included
by default. -/
def awsIncluded (filters : List AwsFilter) (f : String) : Bool :=
  filters.foldl (fun acc fl => if awsMatch fl.pat f then !fl.exclude else acc)
    true

/-- `sync_all_except_gz = ['--include=*', '--exclude=*.gz']`
(`tasks/remote_storage.py:261`). -/
def sync_all_except_gz : List AwsFilter :=
  [⟨false, .star⟩, ⟨true, .starDotGz⟩]

/-- `sync_gz = ['--exclude=*', '--include=*.gz', '--content-encoding=gzip']`
(`tasks/remote_storage.py:262`). -/
def sync_gz : List AwsFilter :=
  [⟨true, .star⟩, ⟨false, .starDotGz⟩]

/-- Modelled from the spec: the content type awscli infers from the file
suffix via `/etc/mime.types` (spec section 4.4: `.html` to `text/html`,
`.png` to `image/png`, default `text/plain`). -/
def guessContentType (f : String) : String :=
  if strEndsWith f ".html" then "text/html"
  else if strEndsWith f ".png" then "image/png"
  else "text/plain"

/-- An object created in the store by one of the two sync passes. -/
structure UploadedObject where
  key : String
  contentType : String
  contentEncoding : Option String
  deriving DecidableEq, Repr

/-- The two `aws s3 sync` passes of `CloudUpload._run`
(`tasks/remote_storage.py:253-267`) over the job's file list: the first pass
uploads everything except `*.gz` with no content encoding, the second only
`*.gz` with `--content-encoding=gzip`. -/
def cloudUpload_run (files : List String) : List UploadedObject :=
  (files.filter (awsIncluded sync_all_except_gz)).map
      (fun f => ⟨f, guessContentType f, none⟩) ++
  (files.filter (awsIncluded sync_gz)).map
      (fun f => ⟨f, guessContentType f, some "gzip"⟩)

/-- Stat data of a regular file in the local job tree. -/
structure FileInfo where
  name : String
  mtime : Nat
  size : Nat
  deriving DecidableEq, Repr

mutual

/-- A local directory: its subdirectories and its regular files, both in the
order in which the filesystem enumerates them (`os.walk` and `os.stat` report
entries in that order; it is not sorted by the code). -/
inductive DirTree where
  | node (subdirs : Subdirs) (files : List FileInfo)

/-- The subdirectory list of a directory: name, stat data and subtree per
entry, in filesystem enumeration order. -/
inductive Subdirs where
  | nil
  | cons (name : String) (mtime size : Nat) (sub : DirTree) (rest : Subdirs)

end

/-- Names of the entries of a subdirectory list, in enumeration order. -/
def Subdirs.names : Subdirs → List String
  | .nil => []
  | .cons n _ _ _ rest => n :: rest.names

/-- One `(root, dirs, files)` triple yielded by `os.walk`; the path is kept
as its component list (the source joins components with `os.sep`). -/
structure WalkEntry where
  path : List String
  dirs : List String
  files : List String
  deriving DecidableEq, Repr

mutual

/-- `os.walk(job_dir)` as consumed by `create_local_indeces`
(`tasks/remote_storage.py:190`): top-down walk, yielding each directory with
its direct children before recursing into the subdirectories in enumeration
order. -/
def walkTree (p : List String) : DirTree → List WalkEntry
  | .node subs files =>
      ⟨p, subs.names, files.map (fun f => f.name)⟩ :: walkSubs p subs

/-- The concatenated walks of the subdirectories, in enumeration order. -/
def walkSubs (p : List String) : Subdirs → List WalkEntry
  | .nil => []
  | .cons n _ _ t rest => walkTree (p ++ [n]) t ++ walkSubs p rest

end

mutual

/-- `True` when every directory of the tree has pairwise distinct entry
names, as a real filesystem guarantees. -/
def nodupSibs : DirTree → Bool
  | .node subs _ => nodupSubs subs

/-- Distinctness of the names along a subdirectory list, recursively. -/
def nodupSubs : Subdirs → Bool
  | .nil => true
  | .cons n _ _ t rest =>
      !(decide (n ∈ Subdirs.names rest)) && nodupSibs t && nodupSubs rest

end

/-- One row of the `objects` list handed to the template: the output of
`make_object` (`tasks/remote_storage.py:139-156`). -/
structure ObjEntry where
  name : String
  mtime : Nat
  size : Nat
  type : String
  deriving DecidableEq, Repr

/-- `make_object` on the subdirectory entries of a directory (the `dirs` part
of `dirs + files`): stat data with kind `"dir"`. -/
def dirObjs : Subdirs → List ObjEntry
  | .nil => []
  | .cons n m s _ rest => ⟨n, m, s, "dir"⟩ :: dirObjs rest

/-- `make_object` on a regular file: stat data with kind `"file"`. -/
def fileObj (f : FileInfo) : ObjEntry :=
  ⟨f.name, f.mtime, f.size, "file"⟩

/-- The Jinja context built by `make_aws_data`
(`tasks/remote_storage.py:167-176`); `remote_path` is kept as a component
list. -/
structure AwsData where
  remote_path : List String
  uuid : String
  pr_number : String
  pr_author : String
  task_name : String
  returncode : String
  objects : List ObjEntry
  deriving DecidableEq, Repr

/-- Modelled from the spec: `generate_index` renders `index_template.html`,
which is not among the sources; per spec sections 4.2 and 6 rendering is a
pure deterministic function of the context, and the document displays the
directory listing (the `objects` rows) together with the job fields.  The
embedding serializes the context; any template that shows the listing factors
through it. -/
def generate_index (d : AwsData) : String :=
  String.intercalate "/" d.remote_path ++ "|" ++ d.uuid ++ "|" ++
    d.pr_number ++ "|" ++ d.pr_author ++ "|" ++ d.task_name ++ "|" ++
    d.returncode ++ "|" ++
    String.intercalate ";"
      (d.objects.map fun o =>
        o.name ++ ":" ++ toString o.mtime ++ ":" ++ toString o.size ++ ":" ++
          o.type)

/-- The fixed name of the written index document. -/
def indexName : String := "index.html"

/-- The job-level arguments of `create_local_indeces` together with the stat
data (`mtime`, `size`) the filesystem records for the index files written
during one run. -/
structure RunCtx where
  uuid : String
  pr_number : String
  pr_author : String
  task_name : String
  returncode : String
  im : Nat
  isz : Nat
  deriving DecidableEq, Repr

/-- Effect of `write_index` (`tasks/remote_storage.py:130-136`) on the file
list of the directory it writes into: `open(..., 'w')` replaces the content
of an existing `index.html` (its stat data becomes that of the new write) or
creates the file. -/
def upsertIndex (im isz : Nat) : List FileInfo → List FileInfo
  | [] => [⟨indexName, im, isz⟩]
  | f :: fs =>
      if f.name == indexName then ⟨indexName, im, isz⟩ :: fs
      else f :: upsertIndex im isz fs

mutual

/-- One run of `create_local_indeces` (`tasks/remote_storage.py:179-197`)
over a directory: list the directory (`dirs + files` through `make_object`),
render and write its index, then recurse top-down into the subdirectories.
Returns the writes (path and rendered context, in walk order) and the tree as
the run leaves it.  A directory is listed when `os.walk` reaches it, before
its own index is written, so within one run a listing never shows the index
file the same run writes into that directory. -/
def runTree (ctx : RunCtx) (p : List String) :
    DirTree → List (List String × AwsData) × DirTree
  | .node subs files =>
      let data : AwsData :=
        ⟨p, ctx.uuid, ctx.pr_number, ctx.pr_author, ctx.task_name,
          ctx.returncode, dirObjs subs ++ files.map fileObj⟩
      let r := runSubs ctx p subs
      ((p, data) :: r.1, .node r.2 (upsertIndex ctx.im ctx.isz files))

/-- The run continued over a subdirectory list. -/
def runSubs (ctx : RunCtx) (p : List String) :
    Subdirs → List (List String × AwsData) × Subdirs
  | .nil => ([], .nil)
  | .cons n m s t rest =>
      let rt := runTree ctx (p ++ [n]) t
      let rr := runSubs ctx p rest
      (rt.1 ++ rr.1, .cons n m s rt.2 rr.2)

end

/-- The rendered documents written by one run, in walk order. -/
def runDocs (ctx : RunCtx) (p : List String) (t : DirTree) : List String :=
  (runTree ctx p t).1.map fun w => generate_index w.2

/-! ### Helper lemmas about the embedded sort -/

/-- The descending-key relation used for sortedness statements. -/
def DescKey (a b : JobRecord) : Prop := keyD b ≤ keyD a

instance : IsTrans JobRecord DescKey :=
  ⟨fun _ _ _ h1 h2 => le_trans h2 h1⟩

/-- The ordering contract of the walk: when `a` is listed before `b`, `b` is
not a strict ancestor (proper path-prefix) of `a`; equivalently, every
ancestor — in particular the parent — of a visited directory was visited
strictly earlier. -/
def ParentFirst (a b : WalkEntry) : Prop :=
  ¬(b.path <+: a.path ∧ b.path ≠ a.path)

theorem pyLtKey_ok {a b : Option Nat} {c : Bool} (h : pyLtKey a b = .ok c) :
    ∃ x y, a = some x ∧ b = some y ∧ c = decide (x < y) := by
  cases a with
  | none => simp [pyLtKey] at h
  | some x =>
    cases b with
    | none => simp [pyLtKey] at h
    | some y =>
      refine ⟨x, y, rfl, rfl, ?_⟩
      simpa [pyLtKey] using h.symm

theorem pyInsertDesc_ok {x : JobRecord} :
    ∀ {acc out : List JobRecord}, pyInsertDesc x acc = .ok out →
      out = insertDesc x acc := by
  intro acc
  induction acc with
  | nil =>
    intro out h
    simp only [pyInsertDesc, Except.ok.injEq] at h
    simp [insertDesc, ← h]
  | cons y ys ih =>
    intro out h
    simp only [pyInsertDesc] at h
    cases hc : pyLtKey y.mtime x.mtime with
    | error e => rw [hc] at h; exact absurd h (by simp)
    | ok c =>
      rw [hc] at h
      obtain ⟨a, b, ha, hb, hcv⟩ := pyLtKey_ok hc
      subst hcv
      by_cases hab : a < b
      · rw [decide_eq_true hab] at h
        simp only [Except.ok.injEq] at h
        simp [insertDesc, keyD, ha, hb, hab, ← h]
      · rw [decide_eq_false hab] at h
        cases hr : pyInsertDesc x ys with
        | error e => rw [hr] at h; exact absurd h (by simp)
        | ok rest =>
          rw [hr] at h
          simp only [Except.ok.injEq] at h
          simp [insertDesc, keyD, ha, hb, hab, ← h, ih hr]

theorem pyInsertDesc_err {x : JobRecord} :
    ∀ {acc : List JobRecord} {e : PyErr}, pyInsertDesc x acc = .error e →
      e = .typeError := by
  intro acc
  induction acc with
  | nil => intro e h; simp [pyInsertDesc] at h
  | cons y ys ih =>
    intro e h
    simp only [pyInsertDesc] at h
    cases hc : pyLtKey y.mtime x.mtime with
    | error e2 =>
      rw [hc] at h
      simp only [Except.error.injEq] at h
      subst h
      cases hy : y.mtime <;> cases hx : x.mtime <;>
        simp [pyLtKey, hy, hx] at hc <;> exact hc.symm
    | ok c =>
      rw [hc] at h
      obtain ⟨a, b, ha, hb, hcv⟩ := pyLtKey_ok hc
      subst hcv
      by_cases hab : a < b
      · rw [decide_eq_true hab] at h
        simp at h
      · rw [decide_eq_false hab] at h
        cases hr : pyInsertDesc x ys with
        | error e2 =>
          rw [hr] at h
          simp only [Except.error.injEq] at h
          exact h ▸ ih hr
        | ok rest => rw [hr] at h; simp at h

theorem pyInsertDesc_none_left {x y : JobRecord} {ys : List JobRecord}
    (hx : x.mtime = none) :
    pyInsertDesc x (y :: ys) = .error .typeError := by
  cases hy : y.mtime <;> simp [pyInsertDesc, pyLtKey, hx, hy]

theorem pyInsertDesc_none_head {x y : JobRecord} {ys : List JobRecord}
    (hy : y.mtime = none) :
    pyInsertDesc x (y :: ys) = .error .typeError := by
  simp [pyInsertDesc, pyLtKey, hy]

theorem insertDesc_ne_nil (x : JobRecord) (acc : List JobRecord) :
    insertDesc x acc ≠ [] := by
  cases acc with
  | nil => simp [insertDesc]
  | cons y ys =>
    by_cases hc : keyD y < keyD x <;> simp [insertDesc, hc]

theorem sortGo_ok_eq :
    ∀ {l acc out : List JobRecord}, sortGo acc l = .ok out →
      out = isortGo acc l := by
  intro l
  induction l with
  | nil =>
    intro acc out h
    simp only [sortGo, Except.ok.injEq] at h
    simp [isortGo, ← h]
  | cons x xs ih =>
    intro acc out h
    simp only [sortGo] at h
    cases hr : pyInsertDesc x acc with
    | error e => rw [hr] at h; exact absurd h (by simp)
    | ok acc2 =>
      rw [hr] at h
      simpa [isortGo, ← pyInsertDesc_ok hr] using ih h

theorem sortGo_err_of_none :
    ∀ {l acc : List JobRecord}, acc ≠ [] →
      (∃ r ∈ l, r.mtime = none) → sortGo acc l = .error .typeError := by
  intro l
  induction l with
  | nil => intro acc _ hex; simp at hex
  | cons x xs ih =>
    intro acc hacc hex
    cases hx : x.mtime with
    | none =>
      obtain ⟨y, ys, rfl⟩ := List.exists_cons_of_ne_nil hacc
      simp [sortGo, pyInsertDesc_none_left hx]
    | some a =>
      have hex2 : ∃ r ∈ xs, r.mtime = none := by
        obtain ⟨r, hr, hrn⟩ := hex
        rcases List.mem_cons.mp hr with rfl | hmem
        · exact absurd hx (by simp [hrn])
        · exact ⟨r, hmem, hrn⟩
      simp only [sortGo]
      cases hr : pyInsertDesc x acc with
      | error e => rw [pyInsertDesc_err hr]
      | ok acc2 =>
        have : acc2 = insertDesc x acc := pyInsertDesc_ok hr
        exact ih (this ▸ insertDesc_ne_nil x acc) hex2

theorem sortRecs_err_of_none {l : List JobRecord} (hlen : 2 ≤ l.length)
    {r : JobRecord} (hr : r ∈ l) (hrn : r.mtime = none) :
    sortRecs l = .error .typeError := by
  match l, hlen with
  | a :: b :: rest, _ =>
    have h1 : sortRecs (a :: b :: rest) = sortGo [a] (b :: rest) := by
      simp [sortRecs, sortGo, pyInsertDesc]
    rw [h1]
    cases ha : a.mtime with
    | none =>
      simp [sortGo, pyInsertDesc_none_head ha]
    | some v =>
      apply sortGo_err_of_none (by simp)
      rcases List.mem_cons.mp hr with rfl | hmem
      · exact absurd ha (by simp [hrn])
      · exact ⟨r, hmem, hrn⟩

theorem insertDesc_head (x : JobRecord) (acc : List JobRecord) :
    (insertDesc x acc).head? = some x ∨ (insertDesc x acc).head? = acc.head? := by
  cases acc with
  | nil => simp [insertDesc]
  | cons y ys =>
    by_cases hc : keyD y < keyD x <;> simp [insertDesc, hc]

theorem insertDesc_sorted {acc : List JobRecord} (x : JobRecord)
    (h : List.Chain' DescKey acc) :
    List.Chain' DescKey (insertDesc x acc) := by
  induction acc with
  | nil => simp [insertDesc]
  | cons y ys ih =>
    by_cases hc : keyD y < keyD x
    · simp only [insertDesc, hc, if_true]
      exact List.chain'_cons.mpr ⟨le_of_lt hc, h⟩
    · simp only [insertDesc, hc, if_false]
      have hy := List.chain'_cons'.mp h
      refine List.chain'_cons'.mpr ⟨?_, ih hy.2⟩
      intro z hz
      rcases insertDesc_head x ys with he | he
      · rw [he] at hz
        simp only [Option.mem_def, Option.some.injEq] at hz
        subst hz
        exact le_of_not_lt hc
      · rw [he] at hz
        exact hy.1 z hz

theorem insertDesc_filter {acc : List JobRecord} (x : JobRecord)
    (h : List.Chain' DescKey acc) (t : Option Nat) :
    (insertDesc x acc).filter (fun r => r.mtime == t) =
      acc.filter (fun r => r.mtime == t) ++
        (if x.mtime == t then [x] else []) := by
  induction acc with
  | nil => by_cases hx : x.mtime == t <;> simp [insertDesc, hx]
  | cons y ys ih =>
    by_cases hc : keyD y < keyD x
    · simp only [insertDesc, hc, if_true]
      by_cases hx : x.mtime == t
      · have hnone : ∀ r ∈ y :: ys, ¬(r.mtime == t) = true := by
          intro r hr hrt
          have hrx : r.mtime = x.mtime := by
            have h1 : r.mtime = t := by simpa using hrt
            have h2 : x.mtime = t := by simpa using hx
            rw [h1, h2]
          have hkey : keyD r = keyD x := by simp [keyD, hrx]
          have hle : keyD r ≤ keyD y := by
            rcases List.mem_cons.mp hr with rfl | hmem
            · exact le_refl _
            · have hp := (List.chain'_iff_pairwise).mp h
              exact (List.pairwise_cons.mp hp).1 r hmem
          omega
        have hfil : (y :: ys).filter (fun r => r.mtime == t) = [] :=
          List.filter_eq_nil_iff.mpr hnone
        simp [List.filter_cons, hx, hfil]
      · simp [List.filter_cons, hx]
    · simp only [insertDesc, hc, if_false]
      have hy := List.chain'_cons'.mp h
      by_cases hyt : y.mtime == t <;>
        simp [List.filter_cons, hyt, ih hy.2]

theorem isortGo_sorted :
    ∀ (l acc : List JobRecord), List.Chain' DescKey acc →
      List.Chain' DescKey (isortGo acc l) := by
  intro l
  induction l with
  | nil => intro acc h; simpa [isortGo] using h
  | cons x xs ih =>
    intro acc h
    simpa [isortGo] using ih (insertDesc x acc) (insertDesc_sorted x h)

theorem isortGo_filter :
    ∀ (l acc : List JobRecord), List.Chain' DescKey acc → ∀ t : Option Nat,
      (isortGo acc l).filter (fun r => r.mtime == t) =
        acc.filter (fun r => r.mtime == t) ++
          l.filter (fun r => r.mtime == t) := by
  intro l
  induction l with
  | nil => intro acc _ t; simp [isortGo]
  | cons x xs ih =>
    intro acc h t
    have step := ih (insertDesc x acc) (insertDesc_sorted x h) t
    show (isortGo (insertDesc x acc) xs).filter (fun r => r.mtime == t) = _
    rw [step, insertDesc_filter x h t]
    by_cases hx : x.mtime == t <;>
      simp [List.filter_cons, hx]

theorem isortD_sorted (l : List JobRecord) :
    List.Chain' DescKey (isortD l) :=
  isortGo_sorted l [] (by simp)

theorem isortD_filter (l : List JobRecord) (t : Option Nat) :
    (isortD l).filter (fun r => r.mtime == t) =
      l.filter (fun r => r.mtime == t) := by
  simpa using isortGo_filter l [] (by simp) t

theorem isortD_mem {l : List JobRecord} {r : JobRecord} (h : r ∈ isortD l) :
    r ∈ l := by
  have h1 : r ∈ (isortD l).filter (fun s => s.mtime == r.mtime) :=
    List.mem_filter.mpr ⟨h, by simp⟩
  rw [isortD_filter] at h1
  exact (List.mem_filter.mp h1).1

/-! ### Helper lemmas about the fetch collection and the pipeline -/

theorem mapExcept_ok_mem {g : α → Except PyErr β} :
    ∀ {l : List α} {out : List β}, mapExcept g l = .ok out →
      ∀ {y : β}, y ∈ out → ∃ x ∈ l, g x = .ok y := by
  intro l
  induction l with
  | nil =>
    intro out h y hy
    simp only [mapExcept, Except.ok.injEq] at h
    rw [← h] at hy
    simp at hy
  | cons x xs ih =>
    intro out h y hy
    simp only [mapExcept] at h
    cases hg : g x with
    | error e => rw [hg] at h; exact absurd h (by simp)
    | ok v =>
      rw [hg] at h
      cases hm : mapExcept g xs with
      | error e => rw [hm] at h; exact absurd h (by simp)
      | ok vs =>
        rw [hm] at h
        simp only [Except.ok.injEq] at h
        rw [← h] at hy
        rcases List.mem_cons.mp hy with rfl | hmem
        · exact ⟨x, by simp, hg⟩
        · obtain ⟨x2, hx2, hgx2⟩ := ih hm hmem
          exact ⟨x2, by simp [hx2], hgx2⟩

theorem mapExcept_err_of_mem {g : α → Except PyErr β} :
    ∀ {l : List α} {x : α} {e : PyErr}, x ∈ l → g x = .error e →
      ∀ out, mapExcept g l ≠ .ok out := by
  intro l
  induction l with
  | nil => intro x e hx; simp at hx
  | cons z zs ih =>
    intro x e hx hgx out h
    simp only [mapExcept] at h
    cases hg : g z with
    | error e2 => rw [hg] at h; exact absurd h (by simp)
    | ok v =>
      rw [hg] at h
      cases hm : mapExcept g zs with
      | error e2 => rw [hm] at h; exact absurd h (by simp)
      | ok vs =>
        rcases List.mem_cons.mp hx with rfl | hmem
        · rw [hgx] at hg; exact absurd hg (by simp)
        · exact ih hmem hgx vs hm

theorem get_jobdir_ok_some {k : String} {f : FetchOutcome} {r : JobRecord}
    (h : get_jobdir_metadata k f = .ok (some r)) :
    (∃ resp, f = .ok resp) ∧ isUuid r.name = true := by
  cases f with
  | clientError => simp [get_jobdir_metadata] at h
  | otherError => simp [get_jobdir_metadata] at h
  | ok resp =>
    refine ⟨⟨resp, rfl⟩, ?_⟩
    simp only [get_jobdir_metadata] at h
    split at h
    · split at h
      · rename_i hu
        simp only [Except.ok.injEq, Option.some.injEq] at h
        rw [← h]
        exact hu
      · exact absurd h (by simp)
    · exact absurd h (by simp)

/-! ### Claim theorems and their supporting statements -/

/-- C3.  The root aggregation result is sorted by modification time
descending and stable: whenever the embedded
`sorted(objects, key=lambda k: k['mtime'], reverse=True)` call of
`create_jobs_root_index` (`tasks/remote_storage.py:99`) returns a list
without raising, every adjacent pair is in weakly decreasing modification
time order, and for every modification-time value the records carrying it
appear in the output exactly in their input order (the completion order of
the metadata fetches). -/
theorem c3_sorted_stable {l out : List JobRecord}
    (h : sortRecs l = .ok out) :
    List.Chain' (fun a b => keyD b ≤ keyD a) out ∧
      ∀ t : Option Nat, out.filter (fun r => r.mtime == t) =
        l.filter (fun r => r.mtime == t) := by
  have he : out = isortD l := sortGo_ok_eq h
  subst he
  exact ⟨isortD_sorted l, fun t => isortD_filter l t⟩

/-- Witness for C3 on a concrete fetch-completion order with a tie:
records `a` and `c` share `mtime = 5`, the sort puts the latest first and
keeps `a` before `c`. -/
theorem c3_sorted_stable_witness :
    List.Chain' (fun a b => keyD b ≤ keyD a)
        [⟨"b", some 7, none, none, none, none⟩,
          ⟨"a", some 5, none, none, none, none⟩,
          ⟨"c", some 5, none, none, none, none⟩] ∧
      ∀ t : Option Nat,
        ([⟨"b", some 7, none, none, none, none⟩,
          ⟨"a", some 5, none, none, none, none⟩,
          ⟨"c", some 5, none, none, none, none⟩] :
            List JobRecord).filter (fun r => r.mtime == t) =
        ([⟨"a", some 5, none, none, none, none⟩,
          ⟨"b", some 7, none, none, none, none⟩,
          ⟨"c", some 5, none, none, none, none⟩] :
            List JobRecord).filter (fun r => r.mtime == t) :=
  @c3_sorted_stable
    [⟨"a", some 5, none, none, none, none⟩,
      ⟨"b", some 7, none, none, none, none⟩,
      ⟨"c", some 5, none, none, none, none⟩]
    [⟨"b", some 7, none, none, none, none⟩,
      ⟨"a", some 5, none, none, none, none⟩,
      ⟨"c", some 5, none, none, none, none⟩] rfl

/-- C4.  Whenever the aggregation pass reaches the root-index put, every
record in the published list stems from a job whose metadata fetch
succeeded and whose derived name passes the UUID format check; moreover a
fetch that fails with the store-client error type yields `None` (the job is
dropped) instead of raising, for every key. -/
theorem c4_output_valid {jobs : List (String × FetchOutcome)}
    {out : List JobRecord}
    (h : create_jobs_root_index jobs = .ok out) :
    (∀ r ∈ out, isUuid r.name = true ∧
      ∃ p ∈ jobs, (∃ resp, p.2 = .ok resp) ∧
        get_jobdir_metadata p.1 p.2 = .ok (some r)) ∧
      ∀ k : String, get_jobdir_metadata k .clientError = .ok none := by
  refine ⟨?_, fun k => rfl⟩
  intro r hr
  simp only [create_jobs_root_index] at h
  split at h
  · exact absurd h (by simp)
  · rename_i metas hm
    split at h
    · exact absurd h (by simp)
    · rename_i sorted hs
      simp only [Except.ok.injEq] at h
      rw [← h] at hr
      have h1 : sorted = isortD (metas.filterMap id) := sortGo_ok_eq hs
      have h2 : r ∈ metas.filterMap id := isortD_mem (h1 ▸ hr)
      have h3 : some r ∈ metas := by
        obtain ⟨o, ho, hor⟩ := List.mem_filterMap.mp h2
        have ho2 : o = some r := hor
        rwa [ho2] at ho
      obtain ⟨p, hp, hgp⟩ := mapExcept_ok_mem hm h3
      obtain ⟨hresp, huuid⟩ := get_jobdir_ok_some hgp
      exact ⟨huuid, p, hp, hresp, hgp⟩

/-- Witness for C4: a pass over one fetchable job and one job whose fetch
fails with `ClientError`; the conclusion holds for its published output. -/
theorem c4_output_valid_witness :
    (∀ r ∈ [({ name := "11111111-1111-1111-1111-111111111111",
                mtime := some 3, pr_number := none, pr_author := none,
                task_name := none, returncode := none } : JobRecord)],
        isUuid r.name = true ∧
        ∃ p ∈ [("jobs/11111111-1111-1111-1111-111111111111/",
                  FetchOutcome.ok ⟨some 3, []⟩),
               ("jobs/rogue/", FetchOutcome.clientError)],
          (∃ resp, p.2 = .ok resp) ∧
            get_jobdir_metadata p.1 p.2 = .ok (some r)) ∧
      ∀ k : String, get_jobdir_metadata k .clientError = .ok none :=
  @c4_output_valid
    [("jobs/11111111-1111-1111-1111-111111111111/",
        FetchOutcome.ok ⟨some 3, []⟩),
      ("jobs/rogue/", FetchOutcome.clientError)]
    [⟨"11111111-1111-1111-1111-111111111111", some 3, none, none, none,
        none⟩] rfl

/-- C10 (amended).  When at least two metadata records survive the drop
filter and one of them has no modification time, the key comparison of the
embedded `sorted` call raises `TypeError`, which the `except ClientError`
clause of `create_jobs_root_index` does not catch, so the pass aborts and
the root-index put never runs.  A fetch failing with the store-client error
type is swallowed per job (the record is dropped), while any other
exception raised by a metadata fetch prevents the pass from reaching the
put.  (With a single surviving record no comparison happens, so a missing
modification time does not raise — see the counterexample.) -/
theorem c10_none_mtime_aborts (jobs : List (String × FetchOutcome))
    (metas : List (Option JobRecord)) :
    (mapExcept (fun p => get_jobdir_metadata p.1 p.2) jobs = .ok metas →
      2 ≤ (metas.filterMap id).length →
      (∃ r ∈ metas.filterMap id, r.mtime = none) →
      create_jobs_root_index jobs = .error .typeError) ∧
    (∀ k : String, get_jobdir_metadata k .clientError = .ok none) ∧
    ((∃ p ∈ jobs, p.2 = .otherError) →
      ∀ out, create_jobs_root_index jobs ≠ .ok out) := by
  refine ⟨?_, fun k => rfl, ?_⟩
  · intro hm hlen hex
    obtain ⟨r, hr, hrn⟩ := hex
    have hs : sortRecs (metas.filterMap id) = .error .typeError :=
      sortRecs_err_of_none hlen hr hrn
    simp [create_jobs_root_index, hm, hs]
  · intro hex out h
    obtain ⟨p, hp, hpe⟩ := hex
    have hg : get_jobdir_metadata p.1 p.2 = .error .otherError := by
      rw [hpe]; rfl
    simp only [create_jobs_root_index] at h
    split at h
    · exact absurd h (by simp)
    · rename_i metas2 hm2
      exact mapExcept_err_of_mem hp hg metas2 hm2

/-- Witness for C10 (amended): two jobs whose marker objects carry no
`LastModified`; the pass aborts with the comparison `TypeError`. -/
theorem c10_none_mtime_aborts_witness :
    create_jobs_root_index
        [("jobs/11111111-1111-1111-1111-111111111111/",
            FetchOutcome.ok ⟨none, []⟩),
          ("jobs/22222222-2222-2222-2222-222222222222/",
            FetchOutcome.ok ⟨none, []⟩)] = .error .typeError :=
  (c10_none_mtime_aborts
      [("jobs/11111111-1111-1111-1111-111111111111/",
          FetchOutcome.ok ⟨none, []⟩),
        ("jobs/22222222-2222-2222-2222-222222222222/",
          FetchOutcome.ok ⟨none, []⟩)]
      [some ⟨"11111111-1111-1111-1111-111111111111", none, none, none, none,
          none⟩,
        some ⟨"22222222-2222-2222-2222-222222222222", none, none, none, none,
          none⟩]).1
    rfl (by decide)
    ⟨⟨"11111111-1111-1111-1111-111111111111", none, none, none, none, none⟩,
      by decide, rfl⟩

/-- Counterexample to C10 as stated: a single job whose marker object has no
`LastModified` survives the filter with `mtime = None`, yet Python's
`sorted` performs no comparison on a one-element list, so no error is
raised and the root-index put runs, publishing that record. -/
theorem c10_counterexample :
    create_jobs_root_index
        [("jobs/11111111-1111-1111-1111-111111111111/",
            FetchOutcome.ok ⟨none, []⟩)] =
      .ok [⟨"11111111-1111-1111-1111-111111111111", none, none, none, none,
          none⟩] := rfl

/-- C1 (amended).  A `ClientError` during the listing stage is caught and
logged inside the `get_jobs` generator, which then just stops yielding: the
aggregation is not aborted, it proceeds with the prefixes yielded before
the failure and still issues the root-index put, overwriting the root index
with a listing built from only those prefixes.  (`failAt = some k` is the
listing failure point; the hypothesis says the truncated pass reaches its
put with records `out`.) -/
theorem c1_listing_error_still_puts (prefixes : List String) (k : Nat)
    (fetch : String → FetchOutcome) (prev : Option (List JobRecord))
    (out : List JobRecord)
    (h : create_jobs_root_index
        ((prefixes.take k).map fun s => (s, fetch s)) = .ok out) :
    get_jobs prefixes (some k) = prefixes.take k ∧
      createRootIndex_run "freeipa" prefixes (some k) fetch prev =
        some out := by
  refine ⟨rfl, ?_⟩
  have ha : aggregate prefixes (some k) fetch = .ok out := by
    unfold aggregate get_jobs
    exact h
  simp [createRootIndex_run, ha]

/-- Witness for C1 (amended): the listing fails immediately, no prefix is
yielded, and the pass still puts an empty root index. -/
theorem c1_listing_error_still_puts_witness :
    get_jobs ["jobs/11111111-1111-1111-1111-111111111111/"] (some 0) =
        (["jobs/11111111-1111-1111-1111-111111111111/"].take 0) ∧
      createRootIndex_run "freeipa"
          ["jobs/11111111-1111-1111-1111-111111111111/"] (some 0)
          (fun _ => FetchOutcome.clientError) none = some [] :=
  c1_listing_error_still_puts
    ["jobs/11111111-1111-1111-1111-111111111111/"] 0
    (fun _ => FetchOutcome.clientError) none [] rfl

/-- Counterexample to C1 as stated: the listing fails entirely (before the
first prefix), yet the root-index put still runs and replaces the last
successfully published state (one job) with an empty listing. -/
theorem c1_counterexample :
    createRootIndex_run "freeipa"
        ["jobs/11111111-1111-1111-1111-111111111111/"] (some 0)
        (fun _ => FetchOutcome.clientError)
        (some [⟨"22222222-2222-2222-2222-222222222222", some 9, none, none,
            none, none⟩]) = some [] ∧
      some ([] : List JobRecord) ≠
        some [⟨"22222222-2222-2222-2222-222222222222", some 9, none, none,
            none, none⟩] :=
  ⟨rfl, by decide⟩

/-- C5.  For every repository owner other than the canonical upstream owner
`"freeipa"`, `CreateRootIndex._run` performs no aggregation and no store
write: the root index object is left exactly as it was. -/
theorem c5_fork_noop (repo_owner : String) (prefixes : List String)
    (failAt : Option Nat) (fetch : String → FetchOutcome)
    (prev : Option (List JobRecord)) (h : repo_owner ≠ "freeipa") :
    createRootIndex_run repo_owner prefixes failAt fetch prev = prev := by
  have hb : (repo_owner == "freeipa") = false := beq_eq_false_iff_ne.mpr h
  simp [createRootIndex_run, hb]

/-- Witness for C5 at the spec's scenario owner `"a-fork-owner"`. -/
theorem c5_fork_noop_witness :
    createRootIndex_run "a-fork-owner"
        ["jobs/11111111-1111-1111-1111-111111111111/"] none
        (fun _ => FetchOutcome.ok ⟨some 1, []⟩)
        (some [⟨"22222222-2222-2222-2222-222222222222", some 9, none, none,
            none, none⟩]) =
      some [⟨"22222222-2222-2222-2222-222222222222", some 9, none, none,
          none, none⟩] :=
  c5_fork_noop "a-fork-owner"
    ["jobs/11111111-1111-1111-1111-111111111111/"] none
    (fun _ => FetchOutcome.ok ⟨some 1, []⟩)
    (some [⟨"22222222-2222-2222-2222-222222222222", some 9, none, none,
        none, none⟩]) (by decide)

/-- C2.  `CloudUpload` construction succeeds exactly on strings matching
the canonical UUID format and raises the validation `TaskException`
otherwise.  The constructor body performs no filesystem or network access
(it is the regex match plus plain attribute assignments), so the failure
happens before any I/O; the embedding is accordingly a pure function. -/
theorem c2_uuid_validation (uuid : String) (pr_number : Option String)
    (task_name : Option String) (repo_owner : String)
    (pr_author : Option String) (returncode : Option String) :
    ((∃ c, cloudUpload_init uuid pr_number task_name repo_owner pr_author
        returncode = .ok c) ↔ isUuid uuid = true) ∧
    (isUuid uuid = false →
      cloudUpload_init uuid pr_number task_name repo_owner pr_author
        returncode = .error "Invalid job UUID") := by
  constructor
  · constructor
    · intro hc
      obtain ⟨c, hc⟩ := hc
      by_contra hu
      have hu2 : isUuid uuid = false := by
        cases h2 : isUuid uuid
        · rfl
        · exact absurd h2 hu
      simp [cloudUpload_init, hu2] at hc
    · intro hu
      refine ⟨{ uuid := uuid, repo_owner := repo_owner,
                pr_number := pyStr pr_number, pr_author := pr_author,
                task_name := task_name, returncode := pyStr returncode }, ?_⟩
      simp [cloudUpload_init, hu, py_not_None]
  · intro hu
    simp [cloudUpload_init, hu]

/-- Witness for C2: a canonical UUID constructs, a malformed one raises the
validation error. -/
theorem c2_uuid_validation_witness :
    (∃ c, cloudUpload_init "11111111-1111-1111-1111-111111111111" none none
        "freeipa" none none = .ok c) ∧
      cloudUpload_init "not-a-uuid" none none "freeipa" none none =
        .error "Invalid job UUID" :=
  ⟨(c2_uuid_validation "11111111-1111-1111-1111-111111111111" none none
      "freeipa" none none).1.mpr (by decide),
    (c2_uuid_validation "not-a-uuid" none none "freeipa" none none).2
      (by decide)⟩

/-- C7 is a code bug: the conditionals of `CloudUpload.__init__` read
`value if not None else ''`, and Python's `not None` is always `True`, so
the `''` default branch is dead.  With all optional inputs missing the
constructed task carries `pr_number = str(None) = "None"`,
`returncode = "None"`, and `pr_author`/`task_name` stay `None`; no field
receives the empty-string default the (clearly intended) `value if value is
not None else ''` idiom would give. -/
theorem c7_defaults_bug :
    cloudUpload_init "11111111-1111-1111-1111-111111111111" none none
        "freeipa" none none =
      .ok { uuid := "11111111-1111-1111-1111-111111111111"
            repo_owner := "freeipa"
            pr_number := "None"
            pr_author := none
            task_name := none
            returncode := "None" } := rfl

theorem awsIncluded_all_except_gz (f : String) :
    awsIncluded sync_all_except_gz f = !(strEndsWith f ".gz") := by
  cases h : strEndsWith f ".gz" <;>
    simp [awsIncluded, sync_all_except_gz, awsMatch, h]

theorem awsIncluded_gz (f : String) :
    awsIncluded sync_gz f = strEndsWith f ".gz" := by
  cases h : strEndsWith f ".gz" <;>
    simp [awsIncluded, sync_gz, awsMatch, h]

/-- C6.  The first sync pass uploads exactly the files not ending in
`.gz`, the second exactly those ending in `.gz`; an object with
content-encoding `gzip` is produced for a file exactly when its name ends
in `.gz`; and on the spec's scenario the pass yields `a.txt` with
content-type `text/plain` and no encoding, and `b.log.gz` with
content-encoding `gzip`. -/
theorem c6_gzip_encoding (files : List String) (f : String)
    (hf : f ∈ files) :
    ((f ∈ files.filter (awsIncluded sync_all_except_gz)) ↔
        strEndsWith f ".gz" = false) ∧
    ((f ∈ files.filter (awsIncluded sync_gz)) ↔
        strEndsWith f ".gz" = true) ∧
    ((∃ o ∈ cloudUpload_run files,
        o.key = f ∧ o.contentEncoding = some "gzip") ↔
      strEndsWith f ".gz" = true) ∧
    cloudUpload_run ["a.txt", "b.log.gz"] =
      [⟨"a.txt", "text/plain", none⟩,
        ⟨"b.log.gz", "text/plain", some "gzip"⟩] := by
  refine ⟨?_, ?_, ?_, by decide⟩
  · rw [List.mem_filter]
    cases h : strEndsWith f ".gz" <;>
      simp [awsIncluded_all_except_gz, h, hf]
  · rw [List.mem_filter]
    cases h : strEndsWith f ".gz" <;>
      simp [awsIncluded_gz, h, hf]
  · constructor
    · intro hex
      obtain ⟨o, ho, hk, he⟩ := hex
      simp only [cloudUpload_run, List.mem_append, List.mem_map,
        List.mem_filter] at ho
      rcases ho with ⟨g, _, hg⟩ | ⟨g, hgm, hg⟩
      · rw [← hg] at he; simp at he
      · rw [← hg] at hk
        simp only at hk
        rw [← hk, ← awsIncluded_gz]
        exact hgm.2
    · intro h
      refine ⟨⟨f, guessContentType f, some "gzip"⟩, ?_, rfl, rfl⟩
      simp only [cloudUpload_run, List.mem_append, List.mem_map,
        List.mem_filter]
      exact Or.inr ⟨f, ⟨hf, by rw [awsIncluded_gz, h]⟩, rfl⟩

/-- Witness for C6 on the scenario file list. -/
theorem c6_gzip_encoding_witness :
    (("a.txt" ∈ (["a.txt", "b.log.gz"] : List String).filter
        (awsIncluded sync_all_except_gz)) ↔
      strEndsWith "a.txt" ".gz" = false) ∧
    (("a.txt" ∈ (["a.txt", "b.log.gz"] : List String).filter
        (awsIncluded sync_gz)) ↔
      strEndsWith "a.txt" ".gz" = true) ∧
    ((∃ o ∈ cloudUpload_run ["a.txt", "b.log.gz"],
        o.key = "a.txt" ∧ o.contentEncoding = some "gzip") ↔
      strEndsWith "a.txt" ".gz" = true) ∧
    cloudUpload_run ["a.txt", "b.log.gz"] =
      [⟨"a.txt", "text/plain", none⟩,
        ⟨"b.log.gz", "text/plain", some "gzip"⟩] :=
  c6_gzip_encoding ["a.txt", "b.log.gz"] "a.txt" (by decide)

/-! ### Walk-order lemmas -/

mutual

theorem walkTree_path_isPre : ∀ (t : DirTree) (p : List String),
    ∀ e ∈ walkTree p t, p <+: e.path
  | .node subs files, p, e, he => by
      rw [walkTree] at he
      rcases List.mem_cons.mp he with rfl | hmem
      · exact List.prefix_refl p
      · obtain ⟨n, _, hpre⟩ := walkSubs_path_isPre subs p e hmem
        exact (List.prefix_append p [n]).trans hpre

theorem walkSubs_path_isPre : ∀ (subs : Subdirs) (p : List String),
    ∀ e ∈ walkSubs p subs,
      ∃ n, n ∈ Subdirs.names subs ∧ (p ++ [n]) <+: e.path
  | .nil, p, e, he => by simp [walkSubs] at he
  | .cons n m s t rest, p, e, he => by
      rw [walkSubs] at he
      rcases List.mem_append.mp he with h1 | h2
      · exact ⟨n, by simp [Subdirs.names],
          walkTree_path_isPre t (p ++ [n]) e h1⟩
      · obtain ⟨n2, hn2, hpre⟩ := walkSubs_path_isPre rest p e h2
        exact ⟨n2, by simp [Subdirs.names, hn2], hpre⟩

end

mutual

theorem walkTree_pairwise : ∀ (t : DirTree) (p : List String),
    nodupSibs t = true → (walkTree p t).Pairwise ParentFirst
  | .node subs files, p, h => by
      rw [walkTree]
      have hsubs : nodupSubs subs = true := by simpa [nodupSibs] using h
      refine List.pairwise_cons.mpr ⟨?_, walkSubs_pairwise subs p hsubs⟩
      intro e he hcon
      obtain ⟨n, _, hpre⟩ := walkSubs_path_isPre subs p e he
      have hlen1 : (p ++ [n]).length ≤ e.path.length := hpre.length_le
      have hlen2 : e.path.length ≤ p.length := hcon.1.length_le
      simp only [List.length_append, List.length_singleton] at hlen1
      omega

theorem walkSubs_pairwise : ∀ (subs : Subdirs) (p : List String),
    nodupSubs subs = true → (walkSubs p subs).Pairwise ParentFirst
  | .nil, p, _ => by simp [walkSubs]
  | .cons n m s t rest, p, h => by
      rw [walkSubs]
      have h1 : ¬(n ∈ Subdirs.names rest) ∧ nodupSibs t = true ∧
          nodupSubs rest = true := by
        simpa [nodupSubs, and_assoc] using h
      refine List.pairwise_append.mpr
        ⟨walkTree_pairwise t (p ++ [n]) h1.2.1,
          walkSubs_pairwise rest p h1.2.2, ?_⟩
      intro a ha b hb
      rintro ⟨hpre, _⟩
      have hapre : (p ++ [n]) <+: a.path := walkTree_path_isPre t (p ++ [n]) a ha
      obtain ⟨n2, hn2mem, hbpre⟩ := walkSubs_path_isPre rest p b hb
      have h3 : (p ++ [n2]) <+: a.path := hbpre.trans hpre
      have h4 : (p ++ [n2]) <+: (p ++ [n]) :=
        List.prefix_of_prefix_length_le h3 hapre (by simp)
      have h5 : p ++ [n2] = p ++ [n] := h4.eq_of_length (by simp)
      have h6 : n2 = n := by simpa using h5
      rw [h6] at hn2mem
      exact h1.1 hn2mem

end

/-- C9 (amended).  The `os.walk`-based traversal of `create_local_indeces`
visits a parent before each of its children (for any directory that appears
in the walk, none of its strict ancestors appears later), for every tree
whose sibling names are distinct.  The sibling visiting order, however, is
the filesystem enumeration order — the code never sorts `dirs` — so it is
deterministic only insofar as that enumeration is, and it is not
lexicographic (see the counterexample). -/
theorem c9_parent_before_children (t : DirTree) (p : List String)
    (h : nodupSibs t = true) :
    (walkTree p t).Pairwise ParentFirst :=
  walkTree_pairwise t p h

/-- Witness for C9 (amended) on a two-level concrete tree. -/
theorem c9_parent_before_children_witness :
    nodupSibs (.node (.cons "b" 0 0 (.node .nil [⟨"x.log", 1, 2⟩]) .nil) []) =
        true ∧
      (walkTree []
          (.node (.cons "b" 0 0 (.node .nil [⟨"x.log", 1, 2⟩]) .nil) [])
        ).Pairwise ParentFirst :=
  ⟨rfl, c9_parent_before_children
    (.node (.cons "b" 0 0 (.node .nil [⟨"x.log", 1, 2⟩]) .nil) []) [] rfl⟩

/-- Counterexample to C9 as stated: when the filesystem enumerates the
sibling directories as `b` then `a`, the walk visits `b` before `a` even
though `"a" < "b"` lexicographically — the visiting order follows the
enumeration order, not the lexicographic one. -/
theorem c9_counterexample :
    walkTree []
        (.node (.cons "b" 0 0 (.node .nil [])
          (.cons "a" 0 0 (.node .nil []) .nil)) []) =
      [⟨[], ["b", "a"], []⟩, ⟨["b"], [], []⟩, ⟨["a"], [], []⟩] ∧
    'a' < 'b' :=
  ⟨by decide, by decide⟩

/-! ### Local-index idempotence lemmas -/

theorem dirObjs_runSubs (ctx : RunCtx) (p : List String) :
    ∀ subs : Subdirs, dirObjs (runSubs ctx p subs).2 = dirObjs subs
  | .nil => rfl
  | .cons n m s t rest => by
      rw [runSubs]
      simp only [dirObjs]
      rw [dirObjs_runSubs ctx p rest]

theorem upsertIndex_append {im isz : Nat} :
    ∀ {files : List FileInfo}, indexName ∉ files.map FileInfo.name →
      upsertIndex im isz files = files ++ [⟨indexName, im, isz⟩]
  | [], _ => rfl
  | f :: fs, h => by
      have hmem : f.name ≠ indexName ∧ indexName ∉ fs.map FileInfo.name := by
        simp only [List.map_cons, List.mem_cons, not_or] at h
        exact ⟨fun he => h.1 he.symm, h.2⟩
      have hf : (f.name == indexName) = false := beq_eq_false_iff_ne.mpr hmem.1
      rw [upsertIndex, hf]
      simp only [Bool.false_eq_true, if_false, List.cons_append,
        List.cons.injEq, true_and]
      exact upsertIndex_append hmem.2

/-- C8 (amended).  `create_local_indeces` is a deterministic function of
the tree state, but running it twice does not reproduce the first run's
documents: the first run creates an `index.html` entry in each directory,
and the second run's listing of any directory that had no such file
includes that entry, so the second run's rendered context for the job root
carries exactly one more object row than the first run's and the two
contexts differ.  (Re-running is byte-identical only on directories whose
visible entries the first run left unchanged.) -/
theorem c8_second_run_differs (ctx : RunCtx) (p : List String)
    (subs : Subdirs) (files : List FileInfo)
    (h : indexName ∉ files.map FileInfo.name) :
    ∃ d1 d2 rest1 rest2,
      (runTree ctx p (.node subs files)).1 = (p, d1) :: rest1 ∧
      (runTree ctx p ((runTree ctx p (.node subs files)).2)).1 =
        (p, d2) :: rest2 ∧
      d2.objects.length = d1.objects.length + 1 ∧
      indexName ∈ d2.objects.map ObjEntry.name ∧
      d1 ≠ d2 := by
  have hup : upsertIndex ctx.im ctx.isz files =
      files ++ [⟨indexName, ctx.im, ctx.isz⟩] := upsertIndex_append h
  refine ⟨⟨p, ctx.uuid, ctx.pr_number, ctx.pr_author, ctx.task_name,
      ctx.returncode, dirObjs subs ++ files.map fileObj⟩,
    ⟨p, ctx.uuid, ctx.pr_number, ctx.pr_author, ctx.task_name,
      ctx.returncode, dirObjs (runSubs ctx p subs).2 ++
        (upsertIndex ctx.im ctx.isz files).map fileObj⟩,
    (runSubs ctx p subs).1,
    (runSubs ctx p (runSubs ctx p subs).2).1, ?_, ?_, ?_, ?_, ?_⟩
  · rfl
  · rfl
  · simp only [dirObjs_runSubs, hup, List.length_append, List.length_map,
      List.length_singleton]
    omega
  · simp [hup, fileObj, indexName]
  · intro he
    have hlen := congrArg (fun d => d.objects.length) he
    simp only [dirObjs_runSubs, hup, List.length_append, List.length_map,
      List.length_singleton] at hlen
    omega

/-- Witness for C8 (amended): a job root holding one ordinary file and no
index file. -/
theorem c8_second_run_differs_witness :
    indexName ∉ ([⟨"a.txt", 5, 10⟩] : List FileInfo).map FileInfo.name ∧
      ∃ d1 d2 rest1 rest2,
        (runTree ⟨"u", "1", "me", "t", "0", 7, 3⟩ ["u"]
            (.node .nil [⟨"a.txt", 5, 10⟩])).1 = (["u"], d1) :: rest1 ∧
        (runTree ⟨"u", "1", "me", "t", "0", 7, 3⟩ ["u"]
            ((runTree ⟨"u", "1", "me", "t", "0", 7, 3⟩ ["u"]
              (.node .nil [⟨"a.txt", 5, 10⟩])).2)).1 = (["u"], d2) :: rest2 ∧
        d2.objects.length = d1.objects.length + 1 ∧
        indexName ∈ d2.objects.map ObjEntry.name ∧
        d1 ≠ d2 :=
  ⟨by decide, c8_second_run_differs ⟨"u", "1", "me", "t", "0", 7, 3⟩ ["u"]
    .nil [⟨"a.txt", 5, 10⟩] (by decide)⟩

/-- Counterexample to C8 as stated: on a job tree with a single file
`a.txt` and no pre-existing index document, the documents rendered by the
second run are not byte-identical to the first run's — the second run's
root document lists the `index.html` the first run created. -/
theorem c8_counterexample :
    runDocs ⟨"u", "1", "me", "t", "0", 7, 3⟩ ["u"]
        (.node .nil [⟨"a.txt", 5, 10⟩]) ≠
      runDocs ⟨"u", "1", "me", "t", "0", 7, 3⟩ ["u"]
        ((runTree ⟨"u", "1", "me", "t", "0", 7, 3⟩ ["u"]
          (.node .nil [⟨"a.txt", 5, 10⟩])).2) := by decide

end RemoteStorage
